import Mathlib

/-!
Shallow embedding of `src/bin/dropbox_downloader.py` (the complete variant of the
dropbox-retrieval scripts): watermark handling, time-window computation, the
pagination loop, per-event timestamp normalization, and the checksum-based
deduplication pipeline, together with theorems settling the specification claims.
-/

namespace DropboxRetrieval

/-! ## Civil-calendar arithmetic

Models CPython `datetime` conversions between epoch seconds and calendar fields
(Howard Hinnant's `days_from_civil` / `civil_from_days` algorithms, which agree
with the proleptic Gregorian calendar used by `datetime`). -/

/-- Days since 1970-01-01 of the civil date `(y, m, d)`. -/
def daysFromCivil (y : Int) (m d : Nat) : Int :=
  let y' : Int := if m ≤ 2 then y - 1 else y
  let era : Int := Int.fdiv y' 400
  let yoe : Nat := (y' - era * 400).toNat
  let mp : Nat := if 2 < m then m - 3 else m + 9
  let doy : Nat := (153 * mp + 2) / 5 + d - 1
  let doe : Nat := yoe * 365 + yoe / 4 - yoe / 100 + doy
  era * 146097 + (doe : Int) - 719468

/-- Civil date `(y, m, d)` of a count of days since 1970-01-01. -/
def civilFromDays (z0 : Int) : Int × Nat × Nat :=
  let z : Int := z0 + 719468
  let era : Int := Int.fdiv z 146097
  let doe : Nat := (z - era * 146097).toNat
  let yoe : Nat := (doe - doe / 1460 + doe / 36524 - doe / 146096) / 365
  let y : Int := (yoe : Int) + era * 400
  let doy : Nat := doe - (365 * yoe + yoe / 4 - yoe / 100)
  let mp : Nat := (5 * doy + 2) / 153
  let d : Nat := doy - (153 * mp + 2) / 5 + 1
  let m : Nat := if mp < 10 then mp + 3 else mp - 9
  (if m ≤ 2 then y + 1 else y, m, d)

/-- Epoch seconds to `(year, month, day, hour, minute, second)`. -/
def civilOfEpoch (e : Int) : Int × Nat × Nat × Nat × Nat × Nat :=
  let days := Int.fdiv e 86400
  let rem : Nat := (Int.fmod e 86400).toNat
  let c := civilFromDays days
  (c.1, c.2.1, c.2.2, rem / 3600, rem % 3600 / 60, rem % 60)

/-- Zero-pad a number to two digits, as `strftime` field specifiers do. -/
def pad2 (n : Nat) : String :=
  if n < 10 then "0" ++ toString n else toString n

/-- Zero-pad a number to four digits, as `strftime` `%Y` does. -/
def pad4 (n : Nat) : String :=
  if n < 10 then "000" ++ toString n
  else if n < 100 then "00" ++ toString n
  else if n < 1000 then "0" ++ toString n
  else toString n

/-- Render epoch seconds with the given separator between date and time:
`strftime("%Y-%m-%d<sep>%H:%M:%S")` of the corresponding `datetime`. -/
def fmtEpoch (sep : String) (e : Int) : String :=
  let c := civilOfEpoch e
  pad4 c.1.toNat ++ "-" ++ pad2 c.2.1 ++ "-" ++ pad2 c.2.2.1 ++ sep ++
    pad2 c.2.2.2.1 ++ ":" ++ pad2 c.2.2.2.2.1 ++ ":" ++ pad2 c.2.2.2.2.2

/-! ## Python string helpers used by the script -/

/-- `s.replace(old, new)` for a single-character pattern, as in
`event['timestamp'].replace('T', ' ').replace('Z', '')`. -/
def replaceChar (s : String) (old : Char) (new : String) : String :=
  ⟨s.data.foldr (fun c acc => if c = old then new.data ++ acc else c :: acc) []⟩

/-- `json_log.rstrip('\n')`: drop trailing newline characters. -/
def pyRstripNl (s : String) : String :=
  ⟨(s.data.reverse.dropWhile (fun c => c = '\n')).reverse⟩

/-- `jsonstamp = event['timestamp'].replace('T', ' ').replace('Z', '')`
(line 274 of `dropbox_downloader.py`). -/
def cleanTimestamp (s : String) : String :=
  replaceChar (replaceChar s 'T' " ") 'Z' ""

/-! ## `datetime.strptime(s, "%Y-%m-%d %H:%M:%S")`

CPython compiles the format to a regex: `%Y` is exactly four digits, `%m` is
`1[0-2]|0[1-9]|[1-9]`, `%d` is `3[01]|[12]\d|0[1-9]|[1-9]`, a space matches a
run of whitespace, `%H` is `2[0-3]|[0-1]\d|\d`, `%M` is `[0-5]\d|\d`, `%S` is
`6[0-1]|[0-5]\d|\d`; the whole input must be consumed, and the resulting fields
must form a valid `datetime` (real calendar day, second below 60). The parsers
below follow the ordered-alternation-with-backtracking semantics of that regex,
longest alternative first, exactly as listed. -/

/-- Value of one ASCII digit, or `none`. -/
def d1 (c : Char) : Option Nat :=
  if c.isDigit then some (c.toNat - 48) else none

/-- Parsed fields of a `%Y-%m-%d %H:%M:%S` timestamp. -/
structure ParsedTime where
  year : Nat
  month : Nat
  day : Nat
  hour : Nat
  minute : Nat
  second : Nat
deriving DecidableEq, Repr

/-- `%S` anchored at end of input. -/
def parseSecEnd : List Char → Option Nat
  | [a, b] =>
    match d1 a, d1 b with
    | some x, some y =>
      if (x = 6 ∧ y ≤ 1) ∨ x ≤ 5 then some (10 * x + y) else none
    | _, _ => none
  | [a] => d1 a
  | _ => none

/-- `%M ':' %S` anchored at end of input. -/
def parseMinSec (cs : List Char) : Option (Nat × Nat) :=
  (match cs with
   | a :: b :: rest =>
     match d1 a, d1 b with
     | some x, some y =>
       if x ≤ 5 then
         match rest with
         | ':' :: rest2 => (parseSecEnd rest2).map (fun s => (10 * x + y, s))
         | _ => none
       else none
     | _, _ => none
   | _ => none)
  <|>
  (match cs with
   | a :: ':' :: rest =>
     (d1 a).bind fun x => (parseSecEnd rest).map (fun s => (x, s))
   | _ => none)

/-- `%H ':' %M ':' %S` anchored at end of input. -/
def parseHMS (cs : List Char) : Option (Nat × Nat × Nat) :=
  (match cs with
   | a :: b :: rest =>
     match d1 a, d1 b with
     | some x, some y =>
       if (x = 2 ∧ y ≤ 3) ∨ x ≤ 1 then
         match rest with
         | ':' :: rest2 => (parseMinSec rest2).map (fun ms => (10 * x + y, ms))
         | _ => none
       else none
     | _, _ => none
   | _ => none)
  <|>
  (match cs with
   | a :: ':' :: rest =>
     (d1 a).bind fun x => (parseMinSec rest).map (fun ms => (x, ms))
   | _ => none)

/-- Python `\s` on the characters relevant here. -/
def isPySpace (c : Char) : Bool :=
  c = ' ' ∨ c = '\t' ∨ c = '\n' ∨ c = '\r' ∨ c = '\x0b' ∨ c = '\x0c'

/-- A run of one or more whitespace characters (the format's literal space). -/
def skipWs1 : List Char → Option (List Char)
  | c :: rest => if isPySpace c then some (rest.dropWhile isPySpace) else none
  | [] => none

/-- `%d` followed by whitespace and `%H:%M:%S`. -/
def parseDayOn (cs : List Char) : Option (Nat × Nat × Nat × Nat) :=
  (match cs with
   | a :: b :: rest =>
     match d1 a, d1 b with
     | some x, some y =>
       if (x = 3 ∧ y ≤ 1) ∨ (1 ≤ x ∧ x ≤ 2) ∨ (x = 0 ∧ 1 ≤ y) then
         (skipWs1 rest).bind fun rest2 =>
           (parseHMS rest2).map (fun hms => (10 * x + y, hms))
       else none
     | _, _ => none
   | _ => none)
  <|>
  (match cs with
   | a :: rest =>
     (d1 a).bind fun x =>
       if 1 ≤ x then
         (skipWs1 rest).bind fun rest2 =>
           (parseHMS rest2).map (fun hms => (x, hms))
       else none
   | _ => none)

/-- `%m '-' %d` and the rest of the format. -/
def parseMonthOn (cs : List Char) : Option (Nat × Nat × Nat × Nat × Nat) :=
  (match cs with
   | a :: b :: rest =>
     match d1 a, d1 b with
     | some x, some y =>
       if (x = 1 ∧ y ≤ 2) ∨ (x = 0 ∧ 1 ≤ y) then
         match rest with
         | '-' :: rest2 => (parseDayOn rest2).map (fun dt => (10 * x + y, dt))
         | _ => none
       else none
     | _, _ => none
   | _ => none)
  <|>
  (match cs with
   | a :: '-' :: rest =>
     (d1 a).bind fun x =>
       if 1 ≤ x then (parseDayOn rest).map (fun dt => (x, dt)) else none
   | _ => none)

/-- Days of each month of a (possibly leap) year, as `datetime` validates. -/
def daysInMonth (y : Nat) (m : Nat) : Nat :=
  if m = 2 then
    if y % 4 = 0 ∧ (y % 100 ≠ 0 ∨ y % 400 = 0) then 29 else 28
  else if m = 4 ∨ m = 6 ∨ m = 9 ∨ m = 11 then 30
  else 31

/-- `datetime.strptime(s, "%Y-%m-%d %H:%M:%S")`: `none` models the raised
`ValueError`. -/
def strptimeYmdHMS (s : String) : Option ParsedTime :=
  match s.data with
  | y1 :: y2 :: y3 :: y4 :: '-' :: rest =>
    match d1 y1, d1 y2, d1 y3, d1 y4 with
    | some a, some b, some c, some d =>
      (parseMonthOn rest).bind fun md =>
        let t : ParsedTime :=
          ⟨1000 * a + 100 * b + 10 * c + d, md.1, md.2.1, md.2.2.1,
            md.2.2.2.1, md.2.2.2.2⟩
        if 1 ≤ t.year ∧ t.day ≤ daysInMonth t.year t.month ∧ t.second ≤ 59 then
          some t
        else none
    | _, _, _, _ => none
  | _ => none

/-! ## Events and normalization -/

/-- A JSON object with string fields, in insertion order (Python dicts preserve
insertion order, and `json.loads` / `json.dumps` respect it). -/
abbrev Event := List (String × String)

/-- `event[k]` as a lookup; `none` models a raised `KeyError`. -/
def getKey (e : Event) (k : String) : Option String :=
  (e.find? (fun kv => kv.1 = k)).map (fun kv => kv.2)

/-- `event[k] = v`: overwrite in place if the key exists, else append. -/
def setKey (e : Event) (k v : String) : Event :=
  if e.any (fun kv => kv.1 = k) then
    e.map (fun kv => if kv.1 = k then (k, v) else kv)
  else e ++ [(k, v)]

/-- JSON string escaping for the characters that can occur here. -/
def escapeJson (s : String) : String :=
  ⟨s.data.foldr
    (fun c acc =>
      if c = '"' then '\\' :: '"' :: acc
      else if c = '\\' then '\\' :: '\\' :: acc
      else c :: acc) []⟩

/-- `json.dumps(event)` with the default separators. -/
def serializeEvent (e : Event) : String :=
  "\x7b" ++
    String.intercalate ", "
      (e.map (fun kv =>
        "\"" ++ escapeJson kv.1 ++ "\": \"" ++ escapeJson kv.2 ++ "\"")) ++
  "\x7d"

/-- The local time zone the process runs in: a fixed offset (seconds east of
UTC) together with the zone label `strftime("%Z")` renders for it. -/
structure Tz where
  offset : Int
  name : String
deriving DecidableEq

/-- Render the parsed UTC fields as `"%Y-%m-%d %H:%M:%S"`. -/
def fmtParsed (t : ParsedTime) : String :=
  pad4 t.year ++ "-" ++ pad2 t.month ++ "-" ++ pad2 t.day ++ " " ++
    pad2 t.hour ++ ":" ++ pad2 t.minute ++ ":" ++ pad2 t.second

/-- Epoch seconds of the parsed UTC fields. -/
def epochOfParsed (t : ParsedTime) : Int :=
  daysFromCivil (t.year : Int) t.month t.day * 86400 +
    ((t.hour * 3600 + t.minute * 60 + t.second : Nat) : Int)

/-- Lines 274-283 of `dropbox_downloader.py`: parse the event's `timestamp`
field (after the `replace` cleanup), then attach `original_timestamp` (the UTC
instant rendered with the `UTC` label) and `adjusted_timestamp` (the same
instant in the local zone). `none` models the uncaught `KeyError`/`ValueError`
that aborts the run. -/
def normalizeEvent (tz : Tz) (e : Event) : Option Event :=
  match getKey e "timestamp" with
  | none => none
  | some raw =>
    match strptimeYmdHMS (cleanTimestamp raw) with
    | none => none
    | some t =>
      let e1 := setKey e "original_timestamp" (fmtParsed t ++ " UTC")
      let e2 := setKey e1 "adjusted_timestamp"
        (fmtEpoch " " (epochOfParsed t + tz.offset) ++ " " ++ tz.name)
      some e2

/-- The event-log line written for a normalized event
(`json.dumps(event).rstrip('\n')`). -/
def lineOfNormalized (ne : Event) : String :=
  pyRstripNl (serializeEvent ne)

/-- The log lines of the normalizable events of a page, in order. -/
def linesOf (tz : Tz) (evs : List Event) : List String :=
  evs.filterMap (fun e => (normalizeEvent tz e).map lineOfNormalized)

/-! ## Watermark and time window -/

/-- `SECONDS_TABLE` (line 145). -/
def SECONDS_TABLE : Char → Option Nat
  | 's' => some 1
  | 'm' => some 60
  | 'h' => some 3600
  | 'd' => some 86400
  | 'w' => some 604800
  | _ => none

/-- Python `int(s)` on a decimal literal string; `none` models `ValueError`. -/
def parseIntStr (s : String) : Option Int :=
  let natOf : List Char → Int := fun cs =>
    (cs.foldl (fun a c => a * 10 + (c.toNat - 48)) 0 : Nat)
  match s.data with
  | [] => none
  | '-' :: rest =>
    if rest ≠ [] ∧ rest.all Char.isDigit then some (-(natOf rest)) else none
  | '+' :: rest =>
    if rest ≠ [] ∧ rest.all Char.isDigit then some (natOf rest) else none
  | cs => if cs.all Char.isDigit then some (natOf cs) else none

/-- `convert_to_seconds` (lines 148-152): `int(my_range[:-1]) *
SECONDS_TABLE[my_range[-1]]`; `none` models the exception on a malformed range. -/
def convert_to_seconds (my_range : String) : Option Int :=
  match my_range.data.getLast? with
  | none => none
  | some u =>
    match SECONDS_TABLE u, parseIntStr ⟨my_range.data.dropLast⟩ with
    | some mult, some n => some (n * (mult : Int))
    | _, _ => none

/-- `get_timestamp_data` (lines 154-175): the lock-file content if the file
exists, else today's midnight default, with `'Z'` appended. -/
def get_timestamp_data (lockContent : Option String) (todayTs : String) : String :=
  (match lockContent with
   | some c => c
   | none => todayTs) ++ "Z"

/-- The content `put_timestamp_data` (lines 177-194) writes to the lock file:
`datetime.now().replace(microsecond=0).isoformat()`, i.e. the current instant
rendered in the local zone with a `'T'` separator. -/
def put_timestamp_data (nowEpoch : Int) (tzOffset : Int) : String :=
  fmtEpoch "T" (nowEpoch + tzOffset)

/-- The `{start_time, end_time}` object sent with the first request. -/
structure Window where
  start_time : String
  end_time : String
deriving DecidableEq

/-- Lines 203-227 of `dropbox_downloader.py`: with a `-s` override the window
is the `'#'`-split pair; otherwise `final_seconds = int(now.timestamp())`,
`start_seconds = final_seconds - convert_to_seconds(TIME_RANGE)`, each rendered
by local `fromtimestamp` + `strftime("%Y-%m-%dT%H:%M:%S")` + `'Z'`.  The
watermark string read from the lock file is in scope (`MY_STAMP`) but does not
occur in this computation.  `none` models the uncaught exception on a malformed
override or range. -/
def computeWindow (override : Option String) (watermarkZ : String)
    (nowEpoch : Int) (tzOffset : Int) (timeRange : String) : Option Window :=
  match override with
  | some s =>
    match s.splitOn "#" with
    | [a, b] => some ⟨a, b⟩
    | _ => none
  | none =>
    (convert_to_seconds timeRange).map (fun rs =>
      ⟨fmtEpoch "T" (nowEpoch - rs + tzOffset) ++ "Z",
       fmtEpoch "T" (nowEpoch + tzOffset) ++ "Z"⟩)

/-! ## The pagination and deduplication run -/

/-- `DROPBOX_BASE_URL` (line 143). -/
def DROPBOX_BASE_URL : String := "https://api.dropboxapi.com/2/team_log/get_events"

/-- The continuation endpoint (line 300). -/
def DROPBOX_CONTINUE_URL : String :=
  "https://api.dropboxapi.com/2/team_log/get_events/continue"

/-- A JSON scalar, as far as the script's `has_more` check can observe it. -/
inductive JVal
  | jbool : Bool → JVal
  | jstr : String → JVal
  | jnum : Int → JVal
deriving DecidableEq

/-- Python truthiness of a JSON scalar. -/
def pyTruthy : JVal → Bool
  | .jbool b => b
  | .jstr s => s ≠ ""
  | .jnum n => n ≠ 0

/-- Python `x == 'true'` (line 299: `dropbox_json_logs['has_more'] == 'true'`).
A JSON boolean never equals the string. -/
def pyEqStrTrue : JVal → Bool
  | .jstr s => s = "true"
  | _ => false

/-- One upstream response: HTTP status, decoded `events`, `has_more`, `cursor`. -/
structure Response where
  status : Nat
  events : List Event
  has_more : JVal
  cursor : String

/-- The body of a `POST`: either the initial time window or a bare cursor. -/
inductive ReqBody
  | window : Window → ReqBody
  | cursor : String → ReqBody
deriving DecidableEq

/-- One outgoing request. -/
structure Request where
  url : String
  body : ReqBody
deriving DecidableEq

/-- The continuation request built on lines 300-301. -/
def contRequest (c : String) : Request :=
  ⟨DROPBOX_CONTINUE_URL, .cursor c⟩

/-- Observable effects of a run, in program order. -/
inductive Action
  | writeWatermark : String → Action
  | httpRequest : Request → Action
  | appendLog : String → Action
  | appendSum : String → Action
deriving DecidableEq

/-- The requests occurring in a trace, in order. -/
def requestsOf (tr : List Action) : List Request :=
  tr.filterMap (fun a => match a with
    | .httpRequest r => some r
    | _ => none)

/-- Whether an action is the watermark write. -/
def isWatermarkWrite : Action → Bool
  | .writeWatermark _ => true
  | _ => false

/-- The two append-only files the dedup loop writes. -/
structure FileState where
  sums : List String
  log : List String
deriving DecidableEq

/-- How a run ends. -/
inductive Outcome
  | done
  | exited : Nat → Outcome
  | tsAbort
  | badConfig
  | starved
deriving DecidableEq

/-- Persistent state across pages: the sums file (`none` when it does not
exist yet) and the event-log lines. -/
structure RunState where
  sumsFile : Option (List String)
  logFile : List String
deriving DecidableEq

/-- The lines of the sums file, `[]` when the file does not exist. -/
def sumsListOf (st : RunState) : List String :=
  match st.sumsFile with
  | some ls => ls
  | none => []

/-- `START_STRING` (lines 263-264): the seed fingerprint, the hash of the fixed
initialization text joined with the sums file's own path. -/
def START_STRING (hash : String → String) (path : String) : String :=
  hash ("Initialized:" ++ path)

/-- Lines 262-266: create the sums file with the single seed line if missing. -/
def ensureSums (hash : String → String) (path : String)
    (file : Option (List String)) : List String :=
  match file with
  | none => [START_STRING hash path]
  | some ls => ls

/-- The write performed by the initialization, as a trace. -/
def initActs (hash : String → String) (path : String)
    (file : Option (List String)) : List Action :=
  match file with
  | none => [.appendSum (START_STRING hash path)]
  | some _ => []

/-- Whether a log line is recorded as novel: its fingerprint is absent from the
in-memory `SUM_LIST` snapshot. -/
def novel (hash : String → String) (sumList : List String) (l : String) : Bool :=
  !decide (hash l ∈ sumList)

/-- Result of the per-event loop over one page. -/
structure PageOut where
  acts : List Action
  fs : FileState
  processed : List Event
  bad : Option Event
deriving DecidableEq

/-- Lines 272-297: for each event, normalize (an unparseable or missing
timestamp raises and aborts), serialize, fingerprint, and append to the log and
sums files when the fingerprint is not in `SUM_LIST`.  `SUM_LIST` itself is
never extended inside the loop. -/
def processEvents (hash : String → String) (tz : Tz) (sumList : List String) :
    List Event → FileState → PageOut
  | [], fs => ⟨[], fs, [], none⟩
  | e :: rest, fs =>
    match normalizeEvent tz e with
    | none => ⟨[], fs, [e], some e⟩
    | some ne =>
      let l := lineOfNormalized ne
      let s := hash l
      if s ∈ sumList then
        let o := processEvents hash tz sumList rest fs
        ⟨o.acts, o.fs, e :: o.processed, o.bad⟩
      else
        let o := processEvents hash tz sumList rest ⟨fs.sums ++ [s], fs.log ++ [l]⟩
        ⟨.appendLog l :: .appendSum s :: o.acts, o.fs, e :: o.processed, o.bad⟩

/-- The effect of one successfully fetched page on the persistent state:
ensure the sums file exists, load `SUM_LIST` from it, then run the per-event
loop. -/
def pageStep (hash : String → String) (tz : Tz) (path : String)
    (st : RunState) (r : Response) : RunState :=
  let sums0 := ensureSums hash path st.sumsFile
  let o := processEvents hash tz sums0 r.events ⟨sums0, st.logFile⟩
  ⟨some o.fs.sums, o.fs.log⟩

/-- Result of the pagination loop. -/
structure LoopOut where
  trace : List Action
  state : RunState
  processed : List Event
  outcome : Outcome
deriving DecidableEq

/-- Lines 238-305: the `while GET_DATA == 'true'` loop.  Each iteration posts
the pending request and consumes the next scripted response: a non-200 status
exits with that status; otherwise the page is deduplicated and appended, and
the loop continues against the continuation endpoint with the page's cursor
exactly when `has_more == 'true'` (Python string comparison).  `starved` marks
a pending request with no scripted response left. -/
def runLoop (hash : String → String) (tz : Tz) (path : String) :
    Request → List Response → RunState → LoopOut
  | _, [], st => ⟨[], st, [], .starved⟩
  | req, r :: rest, st =>
    if r.status ≠ 200 then
      ⟨[.httpRequest req], st, [], .exited r.status⟩
    else
      let ia := initActs hash path st.sumsFile
      let sums0 := ensureSums hash path st.sumsFile
      let o := processEvents hash tz sums0 r.events ⟨sums0, st.logFile⟩
      let st' : RunState := ⟨some o.fs.sums, o.fs.log⟩
      match o.bad with
      | some _ => ⟨.httpRequest req :: (ia ++ o.acts), st', o.processed, .tsAbort⟩
      | none =>
        if pyEqStrTrue r.has_more then
          let o2 := runLoop hash tz path (contRequest r.cursor) rest st'
          ⟨.httpRequest req :: (ia ++ o.acts ++ o2.trace), o2.state,
            o.processed ++ o2.processed, o2.outcome⟩
        else
          ⟨.httpRequest req :: (ia ++ o.acts), st', o.processed, .done⟩

/-- Lines 196-305, one whole invocation of `__main__`: read the watermark,
overwrite the lock file with the current time, compute the window, then drive
the pagination loop starting from the primary endpoint. -/
def runMain (hash : String → String) (tz : Tz) (path : String)
    (override : Option String) (lockContent : Option String) (todayTs : String)
    (nowEpoch : Int) (timeRange : String)
    (responses : List Response) (st : RunState) : LoopOut :=
  let watermarkZ := get_timestamp_data lockContent todayTs
  let wm := put_timestamp_data nowEpoch tz.offset
  match computeWindow override watermarkZ nowEpoch tz.offset timeRange with
  | none => ⟨[.writeWatermark wm], st, [], .badConfig⟩
  | some w =>
    let o := runLoop hash tz path ⟨DROPBOX_BASE_URL, .window w⟩ responses st
    ⟨.writeWatermark wm :: o.trace, o.state, o.processed, o.outcome⟩

/-- A page the loop fully ingests and continues past: HTTP 200, `has_more`
equal (as Python `==`) to the string `'true'`, and every event normalizable. -/
@[reducible] def goodPage (tz : Tz) (r : Response) : Prop :=
  r.status = 200 ∧ pyEqStrTrue r.has_more = true ∧
    ∀ e ∈ r.events, (normalizeEvent tz e).isSome = true

/-- A terminal page: HTTP 200, `has_more` not the string `'true'`, and every
event normalizable. -/
@[reducible] def lastPage (tz : Tz) (r : Response) : Prop :=
  r.status = 200 ∧ pyEqStrTrue r.has_more = false ∧
    ∀ e ∈ r.events, (normalizeEvent tz e).isSome = true

/-- Every event of the list carries a parseable timestamp. -/
@[reducible] def eventsOk (tz : Tz) (evs : List Event) : Prop :=
  ∀ e ∈ evs, (normalizeEvent tz e).isSome = true

/-! ## Helper lemmas -/

theorem linesOf_nil (tz : Tz) : linesOf tz [] = [] := rfl

theorem linesOf_cons_some {tz : Tz} {e ne : Event} (rest : List Event)
    (hne : normalizeEvent tz e = some ne) :
    linesOf tz (e :: rest) = lineOfNormalized ne :: linesOf tz rest := by
  simp [linesOf, List.filterMap_cons, hne]

/-- The sums file only grows under the per-event loop. -/
theorem processEvents_sums_prefix (hash : String → String) (tz : Tz)
    (sumList : List String) (evs : List Event) (fs : FileState) :
    ∃ suf, (processEvents hash tz sumList evs fs).fs.sums = fs.sums ++ suf := by
  induction evs generalizing fs with
  | nil => exact ⟨[], by simp [processEvents]⟩
  | cons e rest ih =>
    simp only [processEvents]
    cases hne : normalizeEvent tz e with
    | none => exact ⟨[], by simp⟩
    | some ne =>
      by_cases hmem : hash (lineOfNormalized ne) ∈ sumList
      · simpa [hmem] using ih fs
      · obtain ⟨suf, hsuf⟩ :=
          ih ⟨fs.sums ++ [hash (lineOfNormalized ne)],
              fs.log ++ [lineOfNormalized ne]⟩
        exact ⟨hash (lineOfNormalized ne) :: suf, by simp [hmem, hsuf]⟩

/-- Characterization of the per-event loop when every event normalizes: no
abort, every event examined, and both files extended by exactly the lines whose
fingerprint was absent from the `SUM_LIST` snapshot. -/
theorem processEvents_ok (hash : String → String) (tz : Tz)
    (sumList : List String) (evs : List Event) (fs : FileState)
    (hok : eventsOk tz evs) :
    (processEvents hash tz sumList evs fs).fs =
      ⟨fs.sums ++ ((linesOf tz evs).filter (novel hash sumList)).map hash,
       fs.log ++ (linesOf tz evs).filter (novel hash sumList)⟩ ∧
    (processEvents hash tz sumList evs fs).bad = none ∧
    (processEvents hash tz sumList evs fs).processed = evs := by
  induction evs generalizing fs with
  | nil => simp [processEvents, linesOf]
  | cons e rest ih =>
    have hes : (normalizeEvent tz e).isSome = true := hok e (by simp)
    obtain ⟨ne, hne⟩ := Option.isSome_iff_exists.mp hes
    have hrest : eventsOk tz rest := fun x hx => hok x (by simp [hx])
    simp only [processEvents, hne, linesOf_cons_some rest hne]
    by_cases hmem : hash (lineOfNormalized ne) ∈ sumList
    · have hnov : novel hash sumList (lineOfNormalized ne) = false := by
        simp [novel, hmem]
      obtain ⟨h1, h2, h3⟩ := ih fs hrest
      simp [hmem, hnov, h1, h2, h3]
    · have hnov : novel hash sumList (lineOfNormalized ne) = true := by
        simp [novel, hmem]
      obtain ⟨h1, h2, h3⟩ :=
        ih ⟨fs.sums ++ [hash (lineOfNormalized ne)],
            fs.log ++ [lineOfNormalized ne]⟩ hrest
      simp [hmem, hnov, h1, h2, h3]

/-- Decomposition of the per-event loop at the first non-normalizable event:
the loop stops there, keeping exactly the appends made for the prefix. -/
theorem processEvents_abort (hash : String → String) (tz : Tz)
    (sumList : List String) (pre : List Event) (b : Event) (post : List Event)
    (fs : FileState) (hok : eventsOk tz pre)
    (hb : normalizeEvent tz b = none) :
    (processEvents hash tz sumList (pre ++ b :: post) fs).fs =
      (processEvents hash tz sumList pre fs).fs ∧
    (processEvents hash tz sumList (pre ++ b :: post) fs).bad = some b ∧
    (processEvents hash tz sumList (pre ++ b :: post) fs).processed =
      pre ++ [b] ∧
    (processEvents hash tz sumList (pre ++ b :: post) fs).acts =
      (processEvents hash tz sumList pre fs).acts := by
  induction pre generalizing fs with
  | nil => simp [processEvents, hb]
  | cons e rest ih =>
    have hes : (normalizeEvent tz e).isSome = true := hok e (by simp)
    obtain ⟨ne, hne⟩ := Option.isSome_iff_exists.mp hes
    have hrest : eventsOk tz rest := fun x hx => hok x (by simp [hx])
    simp only [List.cons_append, processEvents, hne]
    by_cases hmem : hash (lineOfNormalized ne) ∈ sumList
    · obtain ⟨h1, h2, h3, h4⟩ := ih fs hrest
      simp [hmem, h1, h2, h3, h4]
    · obtain ⟨h1, h2, h3, h4⟩ :=
        ih ⟨fs.sums ++ [hash (lineOfNormalized ne)],
            fs.log ++ [lineOfNormalized ne]⟩ hrest
      simp [hmem, h1, h2, h3, h4]

/-- The per-event loop never writes the watermark. -/
theorem processEvents_no_watermark (hash : String → String) (tz : Tz)
    (sumList : List String) (evs : List Event) (fs : FileState) :
    (processEvents hash tz sumList evs fs).acts.filter isWatermarkWrite = [] := by
  induction evs generalizing fs with
  | nil => simp [processEvents]
  | cons e rest ih =>
    simp only [processEvents]
    cases hne : normalizeEvent tz e with
    | none => simp
    | some ne =>
      by_cases hmem : hash (lineOfNormalized ne) ∈ sumList
      · simpa [hmem] using ih fs
      · simp [hmem, List.filter_cons, isWatermarkWrite, ih]

/-- The sums-file initialization never writes the watermark. -/
theorem initActs_no_watermark (hash : String → String) (path : String)
    (file : Option (List String)) :
    (initActs hash path file).filter isWatermarkWrite = [] := by
  cases file <;> simp [initActs, isWatermarkWrite]

/-- The pagination loop never writes the watermark. -/
theorem runLoop_no_watermark (hash : String → String) (tz : Tz) (path : String)
    (req : Request) (rs : List Response) (st : RunState) :
    (runLoop hash tz path req rs st).trace.filter isWatermarkWrite = [] := by
  induction rs generalizing req st with
  | nil => simp [runLoop]
  | cons r rest ih =>
    simp only [runLoop]
    by_cases hs : r.status ≠ 200
    · simp [hs, isWatermarkWrite]
    · simp only [hs, ite_false]
      cases hbad : (processEvents hash tz
          (ensureSums hash path st.sumsFile) r.events
          ⟨ensureSums hash path st.sumsFile, st.logFile⟩).bad with
      | some b =>
        simp [hbad, List.filter_cons, List.filter_append, isWatermarkWrite,
          initActs_no_watermark, processEvents_no_watermark]
      | none =>
        by_cases hm : pyEqStrTrue r.has_more = true <;>
          simp [hbad, hm, List.filter_cons, List.filter_append,
            isWatermarkWrite, initActs_no_watermark,
            processEvents_no_watermark, ih]

/-- The first action of every loop iteration is the pending request. -/
theorem runLoop_head (hash : String → String) (tz : Tz) (path : String)
    (req : Request) (r : Response) (rest : List Response) (st : RunState) :
    (runLoop hash tz path req (r :: rest) st).trace.head? =
      some (.httpRequest req) := by
  simp only [runLoop]
  by_cases hs : r.status ≠ 200
  · simp [hs]
  · simp only [hs, ite_false]
    cases hbad : (processEvents hash tz
        (ensureSums hash path st.sumsFile) r.events
        ⟨ensureSums hash path st.sumsFile, st.logFile⟩).bad with
    | some b => simp
    | none => by_cases hm : pyEqStrTrue r.has_more = true <;> simp [hm]

theorem requestsOf_append (t1 t2 : List Action) :
    requestsOf (t1 ++ t2) = requestsOf t1 ++ requestsOf t2 :=
  List.filterMap_append _ _ _

theorem requestsOf_cons_http (r : Request) (tr : List Action) :
    requestsOf (.httpRequest r :: tr) = r :: requestsOf tr := by
  simp [requestsOf, List.filterMap_cons]

theorem requestsOf_cons_log (l : String) (tr : List Action) :
    requestsOf (.appendLog l :: tr) = requestsOf tr := by
  simp [requestsOf, List.filterMap_cons]

theorem requestsOf_cons_sum (l : String) (tr : List Action) :
    requestsOf (.appendSum l :: tr) = requestsOf tr := by
  simp [requestsOf, List.filterMap_cons]

theorem requestsOf_processEvents (hash : String → String) (tz : Tz)
    (sumList : List String) (evs : List Event) (fs : FileState) :
    requestsOf (processEvents hash tz sumList evs fs).acts = [] := by
  induction evs generalizing fs with
  | nil => simp [processEvents, requestsOf]
  | cons e rest ih =>
    simp only [processEvents]
    cases hne : normalizeEvent tz e with
    | none => simp [requestsOf]
    | some ne =>
      by_cases hmem : hash (lineOfNormalized ne) ∈ sumList
      · simpa [hmem] using ih fs
      · simp only [if_neg hmem]
        rw [requestsOf_cons_log, requestsOf_cons_sum]
        exact ih _

theorem requestsOf_initActs (hash : String → String) (path : String)
    (file : Option (List String)) :
    requestsOf (initActs hash path file) = [] := by
  cases file <;> simp [initActs, requestsOf]

/-- Characterization of the pagination loop over a response sequence of
continuing pages followed by one terminal page: one request per page (the
first one as given, the rest continuation requests carrying the previous
page's cursor), every event of every page examined in order, normal
termination, and the final files obtained by folding the per-page dedup step. -/
theorem runLoop_good (hash : String → String) (tz : Tz) (path : String)
    (front : List Response) (last : Response)
    (hf : ∀ r ∈ front, goodPage tz r) (hl : lastPage tz last) :
    ∀ (req : Request) (st : RunState),
    requestsOf (runLoop hash tz path req (front ++ [last]) st).trace =
      req :: front.map (fun r => contRequest r.cursor) ∧
    (runLoop hash tz path req (front ++ [last]) st).processed =
      ((front ++ [last]).map (fun r => r.events)).flatten ∧
    (runLoop hash tz path req (front ++ [last]) st).outcome = .done ∧
    (runLoop hash tz path req (front ++ [last]) st).state =
      (front ++ [last]).foldl (pageStep hash tz path) st := by
  induction front with
  | nil =>
    intro req st
    obtain ⟨hov, hbad, hpr⟩ := processEvents_ok hash tz
      (ensureSums hash path st.sumsFile) last.events
      ⟨ensureSums hash path st.sumsFile, st.logFile⟩ hl.2.2
    have hs : ¬ last.status ≠ 200 := by simp [hl.1]
    have hmf : ¬ pyEqStrTrue last.has_more = true := by simp [hl.2.1]
    simp only [List.nil_append, runLoop, hs, ite_false, hbad, if_neg hmf]
    refine ⟨?_, ?_, ?_, ?_⟩
    · simp only [requestsOf_cons_http, requestsOf_append, requestsOf_initActs,
        requestsOf_processEvents, List.nil_append, List.append_nil]
      simp
    · simp [hpr]
    · simp
    · simp [pageStep]
  | cons f ft ih =>
    intro req st
    have hgf : goodPage tz f := hf f (List.mem_cons_self f ft)
    have hft : ∀ r ∈ ft, goodPage tz r := fun r hr => hf r (List.mem_cons_of_mem _ hr)
    obtain ⟨hov, hbad, hpr⟩ := processEvents_ok hash tz
      (ensureSums hash path st.sumsFile) f.events
      ⟨ensureSums hash path st.sumsFile, st.logFile⟩ hgf.2.2
    have hs : ¬ f.status ≠ 200 := by simp [hgf.1]
    have hst : (⟨some (processEvents hash tz (ensureSums hash path st.sumsFile)
        f.events ⟨ensureSums hash path st.sumsFile, st.logFile⟩).fs.sums,
        (processEvents hash tz (ensureSums hash path st.sumsFile)
          f.events ⟨ensureSums hash path st.sumsFile, st.logFile⟩).fs.log⟩ :
        RunState) = pageStep hash tz path st f := by
      simp [pageStep]
    obtain ⟨ih1, ih2, ih3, ih4⟩ := ih hft (contRequest f.cursor)
      (pageStep hash tz path st f)
    simp only [List.cons_append, runLoop, hs, ite_false, hbad,
      if_pos hgf.2.1, hst]
    refine ⟨?_, ?_, ?_, ?_⟩
    · simp only [List.append_eq, requestsOf_cons_http, requestsOf_append,
        requestsOf_initActs, requestsOf_processEvents, List.nil_append, ih1]
      simp
    · simp [hpr, ih2]
    · simp [ih3]
    · simp [ih4]

/-- Characterization of the pagination loop when a non-success status arrives
after a sequence of continuing pages: the loop exits with that status, having
issued one request per preceding page plus the failed one, and having touched
the files only for the preceding pages. -/
theorem runLoop_badStatus (hash : String → String) (tz : Tz) (path : String)
    (front : List Response) (bad : Response) (rest : List Response)
    (hf : ∀ r ∈ front, goodPage tz r) (hbadst : bad.status ≠ 200) :
    ∀ (req : Request) (st : RunState),
    (runLoop hash tz path req (front ++ bad :: rest) st).outcome =
      .exited bad.status ∧
    requestsOf (runLoop hash tz path req (front ++ bad :: rest) st).trace =
      req :: front.map (fun r => contRequest r.cursor) ∧
    (runLoop hash tz path req (front ++ bad :: rest) st).processed =
      (front.map (fun r => r.events)).flatten ∧
    (runLoop hash tz path req (front ++ bad :: rest) st).state =
      front.foldl (pageStep hash tz path) st := by
  induction front with
  | nil =>
    intro req st
    simp only [List.nil_append, runLoop, if_pos hbadst, requestsOf_cons_http]
    simp [requestsOf]
  | cons f ft ih =>
    intro req st
    have hgf : goodPage tz f := hf f (List.mem_cons_self f ft)
    have hft : ∀ r ∈ ft, goodPage tz r := fun r hr => hf r (List.mem_cons_of_mem _ hr)
    obtain ⟨hov, hbad, hpr⟩ := processEvents_ok hash tz
      (ensureSums hash path st.sumsFile) f.events
      ⟨ensureSums hash path st.sumsFile, st.logFile⟩ hgf.2.2
    have hs : ¬ f.status ≠ 200 := by simp [hgf.1]
    have hst : (⟨some (processEvents hash tz (ensureSums hash path st.sumsFile)
        f.events ⟨ensureSums hash path st.sumsFile, st.logFile⟩).fs.sums,
        (processEvents hash tz (ensureSums hash path st.sumsFile)
          f.events ⟨ensureSums hash path st.sumsFile, st.logFile⟩).fs.log⟩ :
        RunState) = pageStep hash tz path st f := by
      simp [pageStep]
    obtain ⟨ih1, ih2, ih3, ih4⟩ := ih hft (contRequest f.cursor)
      (pageStep hash tz path st f)
    simp only [List.cons_append, runLoop, hs, ite_false, hbad,
      if_pos hgf.2.1, hst]
    refine ⟨?_, ?_, ?_, ?_⟩
    · simp [ih1]
    · simp only [List.append_eq, requestsOf_cons_http, requestsOf_append,
        requestsOf_initActs, requestsOf_processEvents, List.nil_append, ih2]
      simp
    · simp [hpr, ih3]
    · simp [ih4]

/-- One page step leaves the sums file existing. -/
theorem pageStep_sumsFile (hash : String → String) (tz : Tz) (path : String)
    (st : RunState) (r : Response) :
    ∃ ls, (pageStep hash tz path st r).sumsFile = some ls :=
  ⟨_, rfl⟩

/-- A fingerprint already in the sums file survives a page step. -/
theorem mem_sums_pageStep (hash : String → String) (tz : Tz) (path : String)
    (st : RunState) (r : Response) (x : String)
    (hx : x ∈ sumsListOf st) :
    x ∈ sumsListOf (pageStep hash tz path st r) := by
  obtain ⟨suf, hsuf⟩ := processEvents_sums_prefix hash tz
    (ensureSums hash path st.sumsFile) r.events
    ⟨ensureSums hash path st.sumsFile, st.logFile⟩
  cases hfile : st.sumsFile with
  | none => simp [sumsListOf, hfile] at hx
  | some ls =>
    have : x ∈ ensureSums hash path st.sumsFile := by
      simpa [ensureSums, hfile, sumsListOf] using hx
    simp only [pageStep, sumsListOf, hsuf]
    exact List.mem_append.mpr (Or.inl this)

/-- After a page step, the fingerprint of every normalizable event of the page
is in the sums file. -/
theorem pageStep_captures (hash : String → String) (tz : Tz) (path : String)
    (st : RunState) (r : Response) (hok : eventsOk tz r.events) :
    ∀ l ∈ linesOf tz r.events,
      hash l ∈ sumsListOf (pageStep hash tz path st r) := by
  intro l hl
  obtain ⟨hov, _, _⟩ := processEvents_ok hash tz
    (ensureSums hash path st.sumsFile) r.events
    ⟨ensureSums hash path st.sumsFile, st.logFile⟩ hok
  simp only [pageStep, sumsListOf, hov]
  by_cases hmem : hash l ∈ ensureSums hash path st.sumsFile
  · exact List.mem_append.mpr (Or.inl hmem)
  · refine List.mem_append.mpr (Or.inr ?_)
    refine List.mem_map.mpr ⟨l, ?_, rfl⟩
    refine List.mem_filter.mpr ⟨hl, ?_⟩
    simp [novel, hmem]

/-- A fingerprint in the sums file survives any sequence of page steps. -/
theorem mem_sums_foldl (hash : String → String) (tz : Tz) (path : String)
    (rs : List Response) :
    ∀ (st : RunState) (x : String), x ∈ sumsListOf st →
      x ∈ sumsListOf (rs.foldl (pageStep hash tz path) st) := by
  induction rs with
  | nil => intro st x hx; simpa using hx
  | cons r rest ih =>
    intro st x hx
    simpa using ih (pageStep hash tz path st r) x
      (mem_sums_pageStep hash tz path st r x hx)

/-- After folding the page steps over a run, the fingerprint of every
normalizable event of every page is in the sums file. -/
theorem foldl_captures (hash : String → String) (tz : Tz) (path : String)
    (rs : List Response) :
    ∀ (st : RunState), (∀ r ∈ rs, eventsOk tz r.events) →
      ∀ r ∈ rs, ∀ l ∈ linesOf tz r.events,
        hash l ∈ sumsListOf (rs.foldl (pageStep hash tz path) st) := by
  induction rs with
  | nil => intro st _ r hr; simp at hr
  | cons r0 rest ih =>
    intro st hok r hr l hl
    rcases List.mem_cons.mp hr with rfl | hr
    · have h1 := pageStep_captures hash tz path st r
        (hok r (List.mem_cons_self r rest)) l hl
      simpa using mem_sums_foldl hash tz path rest
        (pageStep hash tz path st r) (hash l) h1
    · have hok' : ∀ x ∈ rest, eventsOk tz x.events :=
        fun x hx => hok x (List.mem_cons_of_mem _ hx)
      simpa using ih (pageStep hash tz path st r0) hok' r hr l hl

/-- A page whose every fingerprint is already present leaves the state
unchanged. -/
theorem pageStep_id (hash : String → String) (tz : Tz) (path : String)
    (st : RunState) (r : Response) (ls : List String)
    (hfile : st.sumsFile = some ls) (hok : eventsOk tz r.events)
    (hmem : ∀ l ∈ linesOf tz r.events, hash l ∈ ls) :
    pageStep hash tz path st r = st := by
  have hens : ensureSums hash path st.sumsFile = ls := by
    simp [ensureSums, hfile]
  obtain ⟨hov, _, _⟩ := processEvents_ok hash tz
    (ensureSums hash path st.sumsFile) r.events
    ⟨ensureSums hash path st.sumsFile, st.logFile⟩ hok
  have hfilter : (linesOf tz r.events).filter
      (novel hash (ensureSums hash path st.sumsFile)) = [] := by
    refine List.filter_eq_nil_iff.mpr ?_
    intro l hl
    simp [novel, hens, hmem l hl]
  cases st with
  | mk sf lf =>
    simp only [pageStep, hov, hfilter]
    simp only [RunState.mk.injEq]
    constructor
    · simp only at hens ⊢
      simp [hens, ← hfile]
    · simp

/-- Folding page steps that all fix the state fixes the state. -/
theorem foldl_id (hash : String → String) (tz : Tz) (path : String)
    (rs : List Response) (st : RunState)
    (hfix : ∀ r ∈ rs, pageStep hash tz path st r = st) :
    rs.foldl (pageStep hash tz path) st = st := by
  induction rs with
  | nil => rfl
  | cons r rest ih =>
    have h0 : pageStep hash tz path st r = st :=
      hfix r (List.mem_cons_self r rest)
    have h1 : ∀ x ∈ rest, pageStep hash tz path st x = st :=
      fun x hx => hfix x (List.mem_cons_of_mem _ hx)
    simp [h0, ih h1]

theorem replaceChar_cons (c : Char) (cs : List Char) (old : Char)
    (new : String) :
    (replaceChar ⟨c :: cs⟩ old new).data =
      (if c = old then new.data else [c]) ++ (replaceChar ⟨cs⟩ old new).data := by
  by_cases hc : c = old <;> simp [replaceChar, hc]

theorem replaceChar_T_data (cs : List Char) :
    (replaceChar ⟨cs⟩ 'T' " ").data =
      cs.map (fun c => if c = 'T' then ' ' else c) := by
  induction cs with
  | nil => rfl
  | cons c cs ih =>
    rw [replaceChar_cons]
    by_cases hc : c = 'T' <;> simp [hc, ih]

theorem replaceChar_Z_data (cs : List Char) :
    (replaceChar ⟨cs⟩ 'Z' "").data =
      cs.filter (fun c => decide (c ≠ 'Z')) := by
  induction cs with
  | nil => rfl
  | cons c cs ih =>
    rw [replaceChar_cons]
    by_cases hc : c = 'Z' <;> simp [hc, List.filter_cons, ih]

/-! ## Claim theorems -/

/-- Claim C10 counterexample: the cleanup does not delete `'T'` characters; it
turns them into spaces, so it disagrees with character deletion already on the
input `"aTb"`. -/
theorem cleanTimestamp_T_not_deleted_cex :
    cleanTimestamp "aTb" = "a b" ∧
    (⟨("aTb" : String).data.filter
        (fun c => !(decide (c = 'T') || decide (c = 'Z')))⟩ : String) = "ab" ∧
    cleanTimestamp "aTb" ≠
      ⟨("aTb" : String).data.filter
        (fun c => !(decide (c = 'T') || decide (c = 'Z')))⟩ := by
  refine ⟨rfl, rfl, by decide⟩

/-- Claim C10 (amended): before parsing with `"%Y-%m-%d %H:%M:%S"`, the
normalizer replaces every `'T'` of the raw timestamp by a space and deletes
every `'Z'`; consequently inputs outside the documented
`YYYY-MM-DDTHH:MM:SSZ` pattern can normalize successfully, e.g. a timestamp
with no trailing `'Z'`, one with a stray `'Z'` in the middle, or one already
using a space separator. -/
theorem cleanTimestamp_replace_semantics :
    (∀ s : String, cleanTimestamp s =
      ⟨(s.data.map (fun c => if c = 'T' then ' ' else c)).filter
        (fun c => decide (c ≠ 'Z'))⟩) ∧
    (strptimeYmdHMS (cleanTimestamp "2021-04-25T18:18:16")).isSome = true ∧
    (strptimeYmdHMS (cleanTimestamp "2021-04-Z25T18:18:16Z")).isSome = true ∧
    (normalizeEvent ⟨0, "UTC"⟩
      [("timestamp", "2021-04-25 18:18:16")]).isSome = true := by
  refine ⟨?_, by decide, by decide, by decide⟩
  intro s
  cases s with
  | mk cs =>
    have hX : replaceChar ⟨cs⟩ 'T' " " =
        ⟨cs.map (fun c => if c = 'T' then ' ' else c)⟩ :=
      congrArg String.mk (replaceChar_T_data cs)
    show replaceChar (replaceChar ⟨cs⟩ 'T' " ") 'Z' "" = _
    rw [hX]
    exact congrArg String.mk (replaceChar_Z_data _)

/-- Claim C8: on a missing dedup index file the initialization creates exactly
one line, the seed fingerprint (the hash of the fixed initialization string
joined with the file's own path); the seed is then contained, nothing else is,
and the seed stays the first line of the file through any later records. -/
theorem fresh_index_seed_behavior (hash : String → String) (path : String) :
    ensureSums hash path none = [hash ("Initialized:" ++ path)] ∧
    START_STRING hash path ∈ ensureSums hash path none ∧
    (∀ x, x ≠ START_STRING hash path → x ∉ ensureSums hash path none) ∧
    ∀ (tz : Tz) (evs : List Event) (log : List String),
      ((processEvents hash tz (ensureSums hash path none) evs
          ⟨ensureSums hash path none, log⟩).fs.sums).head? =
        some (START_STRING hash path) := by
  refine ⟨rfl, by simp [ensureSums, START_STRING], ?_, ?_⟩
  · intro x hx
    simp only [ensureSums, List.mem_singleton]
    exact hx
  · intro tz evs log
    simp only [ensureSums]
    obtain ⟨suf, hsuf⟩ := processEvents_sums_prefix hash tz
      [START_STRING hash path] evs ⟨[START_STRING hash path], log⟩
    simp [hsuf]

theorem fresh_index_seed_behavior_witness :
    ("zz" : String) ≠ START_STRING (fun s => s) "p" ∧
    ("zz" : String) ∉ ensureSums (fun s => s) "p" none :=
  ⟨by decide, (fresh_index_seed_behavior (fun s => s) "p").2.2.1 "zz" (by decide)⟩

/-- Claim C7: a page containing an event whose `timestamp` field is missing or
unparseable makes the per-event loop abort at the first such event with a
timestamp error (the uncaught `KeyError`/`ValueError`), the failing event is
appended neither to the event log nor to the dedup index, and the whole run
ends in the timestamp-abort outcome. -/
theorem malformed_timestamp_aborts_run (hash : String → String) (tz : Tz)
    (path : String) (sumList : List String) (pre : List Event) (b : Event)
    (post : List Event) (fs : FileState) (hok : eventsOk tz pre)
    (hb : normalizeEvent tz b = none) :
    (processEvents hash tz sumList (pre ++ b :: post) fs).bad = some b ∧
    (processEvents hash tz sumList (pre ++ b :: post) fs).fs =
      (processEvents hash tz sumList pre fs).fs ∧
    ∀ (req : Request) (rest : List Response) (st : RunState)
      (hm : JVal) (cur : String),
      (runLoop hash tz path req
        (⟨200, pre ++ b :: post, hm, cur⟩ :: rest) st).outcome = .tsAbort := by
  obtain ⟨h1, h2, h3, h4⟩ := processEvents_abort hash tz sumList pre b post fs
    hok hb
  refine ⟨h2, h1, ?_⟩
  intro req rest st hm cur
  obtain ⟨g1, g2, g3, g4⟩ := processEvents_abort hash tz
    (ensureSums hash path st.sumsFile) pre b post
    ⟨ensureSums hash path st.sumsFile, st.logFile⟩ hok hb
  simp [runLoop, g2]

theorem malformed_timestamp_aborts_run_witness :
    (processEvents (fun s => s) ⟨0, "UTC"⟩ ["seed"]
        ([[("timestamp", "2021-04-25T18:18:16Z")]] ++
          [("timestamp", "not-a-date")] :: []) ⟨["seed"], []⟩).bad =
      some [("timestamp", "not-a-date")] ∧
    normalizeEvent ⟨0, "UTC"⟩ [("timestamp", "not-a-date")] = none :=
  ⟨(malformed_timestamp_aborts_run (fun s => s) ⟨0, "UTC"⟩ "p" ["seed"]
      [[("timestamp", "2021-04-25T18:18:16Z")]]
      [("timestamp", "not-a-date")] [] ⟨["seed"], []⟩
      (by decide) (by decide)).1,
   by decide⟩

/-- Claim C9: when the per-event loop aborts on a malformed timestamp, every
novel event processed before the failing one remains appended to the event log
and the dedup index; nothing is rolled back. -/
theorem abort_preserves_prior_appends (hash : String → String) (tz : Tz)
    (sumList : List String) (pre : List Event) (b : Event) (post : List Event)
    (fs : FileState) (hok : eventsOk tz pre)
    (hb : normalizeEvent tz b = none) :
    (processEvents hash tz sumList (pre ++ b :: post) fs).fs.log =
      fs.log ++ (linesOf tz pre).filter (novel hash sumList) ∧
    (processEvents hash tz sumList (pre ++ b :: post) fs).fs.sums =
      fs.sums ++ ((linesOf tz pre).filter (novel hash sumList)).map hash ∧
    (processEvents hash tz sumList (pre ++ b :: post) fs).bad = some b := by
  obtain ⟨h1, h2, h3, h4⟩ := processEvents_abort hash tz sumList pre b post fs
    hok hb
  obtain ⟨k1, k2, k3⟩ := processEvents_ok hash tz sumList pre fs hok
  refine ⟨?_, ?_, h2⟩
  · rw [h1, k1]
  · rw [h1, k1]

theorem abort_preserves_prior_appends_witness :
    (processEvents (fun s => s) ⟨0, "UTC"⟩ ["seed"]
        ([[("timestamp", "2021-04-25T18:18:16Z")]] ++
          [("timestamp", "not-a-date")] :: []) ⟨["seed"], []⟩).fs.log =
      [] ++ (linesOf ⟨0, "UTC"⟩ [[("timestamp", "2021-04-25T18:18:16Z")]]).filter
        (novel (fun s => s) ["seed"]) :=
  (abort_preserves_prior_appends (fun s => s) ⟨0, "UTC"⟩ ["seed"]
    [[("timestamp", "2021-04-25T18:18:16Z")]]
    [("timestamp", "not-a-date")] [] ⟨["seed"], []⟩
    (by decide) (by decide)).1

theorem requestsOf_cons_wm (c : String) (tr : List Action) :
    requestsOf (.writeWatermark c :: tr) = requestsOf tr := by
  simp [requestsOf, List.filterMap_cons]

/-- Every loop iteration begins by posting the pending request. -/
theorem runLoop_trace_cons (hash : String → String) (tz : Tz) (path : String)
    (req : Request) (r : Response) (rest : List Response) (st : RunState) :
    ∃ t, (runLoop hash tz path req (r :: rest) st).trace =
      .httpRequest req :: t := by
  have h := runLoop_head hash tz path req r rest st
  cases htr : (runLoop hash tz path req (r :: rest) st).trace with
  | nil => rw [htr] at h; simp at h
  | cons a t =>
    rw [htr] at h
    simp only [List.head?_cons, Option.some.injEq] at h
    exact ⟨t, by rw [h]⟩

/-- Claim C6: every run writes the watermark exactly once, as its very first
action — in particular before any upstream request — and never again
afterwards, whatever the responses and however the run ends; so a run that
fails mid-pagination has already advanced the watermark to this run's start
time. -/
theorem watermark_written_once_at_start (hash : String → String) (tz : Tz)
    (path : String) (override : Option String) (lockContent : Option String)
    (todayTs : String) (nowEpoch : Int) (timeRange : String)
    (responses : List Response) (st : RunState) :
    (runMain hash tz path override lockContent todayTs nowEpoch timeRange
        responses st).trace.head? =
      some (.writeWatermark (put_timestamp_data nowEpoch tz.offset)) ∧
    ((runMain hash tz path override lockContent todayTs nowEpoch timeRange
        responses st).trace.filter isWatermarkWrite).length = 1 := by
  simp only [runMain]
  cases hw : computeWindow override (get_timestamp_data lockContent todayTs)
      nowEpoch tz.offset timeRange with
  | none => simp [List.filter_cons, isWatermarkWrite]
  | some w =>
    constructor
    · simp
    · simp [List.filter_cons, isWatermarkWrite, runLoop_no_watermark]

/-- Claim C1 counterexample: with the watermark `2021-01-01T00:00:00` persisted
in the lock file and current time `2021-06-01T12:00:00Z` (epoch 1622548800,
UTC zone), a run without a timestamp-pair override sends
`start_time = 2021-05-31T12:00:00Z` — current time minus the `1d` default
range — not the watermark, even though the watermark precedes the current
time. -/
theorem window_start_ignores_watermark_cex :
    get_timestamp_data (some "2021-01-01T00:00:00") "2021-06-01T00:00:00.000" =
      "2021-01-01T00:00:00Z" ∧
    (strptimeYmdHMS (cleanTimestamp "2021-01-01T00:00:00Z")).map epochOfParsed =
      some 1609459200 ∧
    (1609459200 : Int) < 1622548800 ∧
    computeWindow none "2021-01-01T00:00:00Z" 1622548800 0 "1d" =
      some ⟨"2021-05-31T12:00:00Z", "2021-06-01T12:00:00Z"⟩ ∧
    ("2021-05-31T12:00:00Z" : String) ≠ "2021-01-01T00:00:00Z" := by
  refine ⟨rfl, by decide, by decide, by decide, by decide⟩

/-- Claim C1 (amended): for every run without an explicit timestamp-pair
override, the first request goes to the primary endpoint carrying the window
`start_time = T - convert_to_seconds(TIME_RANGE)` and `end_time = T`, both
rendered in the local zone with a `'Z'` suffix, where `T` is the current
wall-clock time; the watermark read from the lock file (and the default used
when it is absent) has no effect on the run at all. -/
theorem window_start_from_time_range (hash : String → String) (tz : Tz)
    (path : String) (lc1 lc2 : Option String) (today1 today2 : String)
    (nowEpoch : Int) (timeRange : String) (rs : Int)
    (hrs : convert_to_seconds timeRange = some rs)
    (r : Response) (rest : List Response) (st : RunState) :
    (requestsOf (runMain hash tz path none lc1 today1 nowEpoch timeRange
        (r :: rest) st).trace).head? =
      some ⟨DROPBOX_BASE_URL, .window
        ⟨fmtEpoch "T" (nowEpoch - rs + tz.offset) ++ "Z",
         fmtEpoch "T" (nowEpoch + tz.offset) ++ "Z"⟩⟩ ∧
    runMain hash tz path none lc1 today1 nowEpoch timeRange (r :: rest) st =
      runMain hash tz path none lc2 today2 nowEpoch timeRange (r :: rest) st := by
  have hw : ∀ (w : String), computeWindow none w nowEpoch tz.offset timeRange =
      some ⟨fmtEpoch "T" (nowEpoch - rs + tz.offset) ++ "Z",
            fmtEpoch "T" (nowEpoch + tz.offset) ++ "Z"⟩ := by
    intro w
    simp [computeWindow, hrs]
  constructor
  · simp only [runMain, hw]
    obtain ⟨t, ht⟩ := runLoop_trace_cons hash tz path
      ⟨DROPBOX_BASE_URL, .window
        ⟨fmtEpoch "T" (nowEpoch - rs + tz.offset) ++ "Z",
         fmtEpoch "T" (nowEpoch + tz.offset) ++ "Z"⟩⟩ r rest st
    simp [requestsOf_cons_wm, ht, requestsOf_cons_http]
  · simp only [runMain, hw]

theorem window_start_from_time_range_witness :
    (requestsOf (runMain (fun s => s) ⟨0, "UTC"⟩ "p" none
        (some "2021-01-01T00:00:00") "x" 1622548800 "1d"
        ([⟨200, [], .jbool false, ""⟩]) ⟨none, []⟩).trace).head? =
      some ⟨DROPBOX_BASE_URL, .window
        ⟨fmtEpoch "T" ((1622548800 : Int) - 86400 + (0 : Int)) ++ "Z",
         fmtEpoch "T" ((1622548800 : Int) + (0 : Int)) ++ "Z"⟩⟩ ∧
    runMain (fun s => s) ⟨0, "UTC"⟩ "p" none (some "2021-01-01T00:00:00") "x"
        1622548800 "1d" ([⟨200, [], .jbool false, ""⟩]) ⟨none, []⟩ =
      runMain (fun s => s) ⟨0, "UTC"⟩ "p" none none "y" 1622548800 "1d"
        ([⟨200, [], .jbool false, ""⟩]) ⟨none, []⟩ :=
  window_start_from_time_range (fun s => s) ⟨0, "UTC"⟩ "p"
    (some "2021-01-01T00:00:00") none "x" "y" 1622548800 "1d" 86400
    (by decide) ⟨200, [], .jbool false, ""⟩ [] ⟨none, []⟩

/-- Claim C2: the loop continues only when `has_more` equals (by Python `==`)
the string `'true'`. A JSON boolean `true` is truthy but is not equal to that
string, so on a response sequence whose `has_more` flags are the booleans
`true` then `false` — the types the upstream API actually sends — the driver
stops after a single request instead of the two the claim requires, leaving
the second page unfetched. -/
theorem boolean_has_more_stops_pagination :
    pyTruthy (.jbool true) = true ∧
    pyTruthy (.jbool false) = false ∧
    pyEqStrTrue (.jbool true) = false ∧
    (runLoop (fun s => s) ⟨0, "UTC"⟩ "p" ⟨DROPBOX_BASE_URL, .window ⟨"a", "b"⟩⟩
        [⟨200, [], .jbool true, "c1"⟩, ⟨200, [], .jbool false, ""⟩]
        ⟨some ["s"], []⟩).outcome = .done ∧
    (requestsOf (runLoop (fun s => s) ⟨0, "UTC"⟩ "p"
        ⟨DROPBOX_BASE_URL, .window ⟨"a", "b"⟩⟩
        [⟨200, [], .jbool true, "c1"⟩, ⟨200, [], .jbool false, ""⟩]
        ⟨some ["s"], []⟩).trace).length = 1 := by
  refine ⟨rfl, rfl, rfl, by decide, by decide⟩

/-- Claim C4: when a request of the run is answered with a non-success HTTP
status after any number of successfully ingested pages, the run terminates at
that point with exit status equal to the upstream status code, having issued no
further requests, examined no events of the failed response, and appended
nothing beyond the preceding pages. -/
theorem upstream_failure_exits_with_status (hash : String → String) (tz : Tz)
    (path : String) (override : Option String) (lc : Option String)
    (today : String) (nowEpoch : Int) (timeRange : String)
    (front : List Response) (bad : Response) (rest : List Response)
    (hf : ∀ r ∈ front, goodPage tz r) (hb : bad.status ≠ 200) (w : Window)
    (hw : computeWindow override (get_timestamp_data lc today) nowEpoch
      tz.offset timeRange = some w) (st : RunState) :
    (runMain hash tz path override lc today nowEpoch timeRange
        (front ++ bad :: rest) st).outcome = .exited bad.status ∧
    (requestsOf (runMain hash tz path override lc today nowEpoch timeRange
        (front ++ bad :: rest) st).trace).length = front.length + 1 ∧
    (runMain hash tz path override lc today nowEpoch timeRange
        (front ++ bad :: rest) st).processed =
      (front.map (fun r => r.events)).flatten ∧
    (runMain hash tz path override lc today nowEpoch timeRange
        (front ++ bad :: rest) st).state =
      front.foldl (pageStep hash tz path) st := by
  obtain ⟨h1, h2, h3, h4⟩ := runLoop_badStatus hash tz path front bad rest hf hb
    ⟨DROPBOX_BASE_URL, .window w⟩ st
  simp only [runMain, hw]
  refine ⟨h1, ?_, h3, h4⟩
  rw [requestsOf_cons_wm, h2]
  simp

theorem upstream_failure_exits_with_status_witness :
    (runMain (fun s => s) ⟨0, "UTC"⟩ "p" none none "t" 1622548800 "1d"
        ([⟨200, [[("timestamp", "2021-04-25T18:18:16Z")]], .jstr "true", "c"⟩] ++
          ⟨503, [[("timestamp", "2021-04-25T18:18:17Z")]], .jbool false, ""⟩ ::
            []) ⟨none, []⟩).outcome = .exited 503 :=
  (upstream_failure_exits_with_status (fun s => s) ⟨0, "UTC"⟩ "p" none none "t"
    1622548800 "1d"
    [⟨200, [[("timestamp", "2021-04-25T18:18:16Z")]], .jstr "true", "c"⟩]
    ⟨503, [[("timestamp", "2021-04-25T18:18:17Z")]], .jbool false, ""⟩ []
    (by decide) (by decide)
    ⟨"2021-05-31T12:00:00Z", "2021-06-01T12:00:00Z"⟩ (by decide)
    ⟨none, []⟩).1

/-- Claim C3 counterexample: two identical events inside one page are both
appended — the event log receives the same line twice and the sums file the
same fingerprint twice — because the in-memory `SUM_LIST` snapshot is not
extended when a fingerprint is recorded. -/
theorem same_page_duplicate_appended_twice :
    (normalizeEvent ⟨0, "UTC"⟩
      [("timestamp", "2021-04-25T18:18:16Z")]).isSome = true ∧
    (processEvents (fun s => s) ⟨0, "UTC"⟩ ["seed"]
        [[("timestamp", "2021-04-25T18:18:16Z")],
         [("timestamp", "2021-04-25T18:18:16Z")]]
        ⟨["seed"], []⟩).fs.log.length = 2 ∧
    (processEvents (fun s => s) ⟨0, "UTC"⟩ ["seed"]
        [[("timestamp", "2021-04-25T18:18:16Z")],
         [("timestamp", "2021-04-25T18:18:16Z")]]
        ⟨["seed"], []⟩).fs.log.head? =
      (processEvents (fun s => s) ⟨0, "UTC"⟩ ["seed"]
        [[("timestamp", "2021-04-25T18:18:16Z")],
         [("timestamp", "2021-04-25T18:18:16Z")]]
        ⟨["seed"], []⟩).fs.log.getLast? ∧
    (processEvents (fun s => s) ⟨0, "UTC"⟩ ["seed"]
        [[("timestamp", "2021-04-25T18:18:16Z")],
         [("timestamp", "2021-04-25T18:18:16Z")]]
        ⟨["seed"], []⟩).fs.sums.length = 3 := by
  refine ⟨by decide, by decide, by decide, by decide⟩

/-- Claim C3 (amended): within one page, dedup membership is checked only
against the `SUM_LIST` snapshot loaded when the page began — an event is
appended exactly when its fingerprint is absent from that snapshot, so
identical events in the same page are all appended, while a duplicate of an
event recorded on an earlier page is suppressed because each page's snapshot
is re-read from the sums file, which already holds the earlier fingerprint. -/
theorem dedup_checks_page_snapshot (hash : String → String) (tz : Tz)
    (path : String) (st : RunState) (r : Response)
    (hok : eventsOk tz r.events) :
    pageStep hash tz path st r =
      ⟨some (ensureSums hash path st.sumsFile ++
         ((linesOf tz r.events).filter
           (novel hash (ensureSums hash path st.sumsFile))).map hash),
       st.logFile ++
         (linesOf tz r.events).filter
           (novel hash (ensureSums hash path st.sumsFile))⟩ := by
  obtain ⟨h1, _, _⟩ := processEvents_ok hash tz
    (ensureSums hash path st.sumsFile) r.events
    ⟨ensureSums hash path st.sumsFile, st.logFile⟩ hok
  simp [pageStep, h1]

theorem dedup_checks_page_snapshot_witness :
    pageStep (fun s => s) ⟨0, "UTC"⟩ "p" ⟨some ["seed"], []⟩
        ⟨200, [[("timestamp", "2021-04-25T18:18:16Z")],
               [("timestamp", "2021-04-25T18:18:16Z")]], .jstr "x", "c"⟩ =
      ⟨some (ensureSums (fun s => s) "p" (some ["seed"]) ++
         ((linesOf ⟨0, "UTC"⟩ [[("timestamp", "2021-04-25T18:18:16Z")],
             [("timestamp", "2021-04-25T18:18:16Z")]]).filter
           (novel (fun s => s)
             (ensureSums (fun s => s) "p" (some ["seed"])))).map (fun s => s)),
       [] ++ (linesOf ⟨0, "UTC"⟩ [[("timestamp", "2021-04-25T18:18:16Z")],
           [("timestamp", "2021-04-25T18:18:16Z")]]).filter
         (novel (fun s => s) (ensureSums (fun s => s) "p" (some ["seed"])))⟩ :=
  dedup_checks_page_snapshot (fun s => s) ⟨0, "UTC"⟩ "p" ⟨some ["seed"], []⟩
    ⟨200, [[("timestamp", "2021-04-25T18:18:16Z")],
           [("timestamp", "2021-04-25T18:18:16Z")]], .jstr "x", "c"⟩
    (by decide)

/-- Claim C5: a second full run over the same response sequence (same window,
identical upstream data) leaves the event log and the dedup index exactly as
the first run left them — every event's fingerprint is already in the index
after the first run, so the second run appends nothing. -/
theorem second_run_appends_nothing (hash : String → String) (tz : Tz)
    (path : String) (override : Option String) (lc : Option String)
    (today : String) (nowEpoch : Int) (timeRange : String)
    (front : List Response) (last : Response)
    (hf : ∀ r ∈ front, goodPage tz r) (hl : lastPage tz last) (w : Window)
    (hw : computeWindow override (get_timestamp_data lc today) nowEpoch
      tz.offset timeRange = some w) (st : RunState) :
    (runMain hash tz path override lc today nowEpoch timeRange (front ++ [last])
        (runMain hash tz path override lc today nowEpoch timeRange
          (front ++ [last]) st).state).state =
      (runMain hash tz path override lc today nowEpoch timeRange
        (front ++ [last]) st).state ∧
    ∀ r ∈ front ++ [last], ∀ l ∈ linesOf tz r.events,
      hash l ∈ sumsListOf (runMain hash tz path override lc today nowEpoch
        timeRange (front ++ [last]) st).state := by
  have hok : ∀ r ∈ front ++ [last], eventsOk tz r.events := by
    intro r hr
    rcases List.mem_append.mp hr with hr | hr
    · exact (hf r hr).2.2
    · rw [List.mem_singleton.mp hr]
      exact hl.2.2
  obtain ⟨_, _, _, g4⟩ := runLoop_good hash tz path front last hf hl
    ⟨DROPBOX_BASE_URL, .window w⟩ st
  obtain ⟨_, _, _, g4'⟩ := runLoop_good hash tz path front last hf hl
    ⟨DROPBOX_BASE_URL, .window w⟩
    ((front ++ [last]).foldl (pageStep hash tz path) st)
  have hcap := foldl_captures hash tz path (front ++ [last]) st hok
  obtain ⟨ls, hls⟩ : ∃ ls,
      ((front ++ [last]).foldl (pageStep hash tz path) st).sumsFile = some ls := by
    rw [List.foldl_append]
    exact pageStep_sumsFile hash tz path _ last
  have hfix : ∀ r ∈ front ++ [last],
      pageStep hash tz path
        ((front ++ [last]).foldl (pageStep hash tz path) st) r =
      (front ++ [last]).foldl (pageStep hash tz path) st := by
    intro r hr
    refine pageStep_id hash tz path _ r ls hls (hok r hr) ?_
    intro l hl2
    have hmem := hcap r hr l hl2
    have h2 : sumsListOf ((front ++ [last]).foldl (pageStep hash tz path) st) =
        ls := by
      simp only [sumsListOf, hls]
    rw [h2] at hmem
    exact hmem
  have hid := foldl_id hash tz path (front ++ [last])
    ((front ++ [last]).foldl (pageStep hash tz path) st) hfix
  constructor
  · simp only [runMain, hw]
    rw [g4, g4', hid]
  · intro r hr l hl2
    simp only [runMain, hw]
    rw [g4]
    exact hcap r hr l hl2

theorem second_run_appends_nothing_witness :
    (runMain (fun s => s) ⟨0, "UTC"⟩ "p" none none "t" 1622548800 "1d"
        ([⟨200, [[("timestamp", "2021-04-25T18:18:16Z")]], .jstr "true", "c"⟩] ++
          [⟨200, [[("timestamp", "2021-04-25T18:18:17Z")]], .jstr "", ""⟩])
        (runMain (fun s => s) ⟨0, "UTC"⟩ "p" none none "t" 1622548800 "1d"
          ([⟨200, [[("timestamp", "2021-04-25T18:18:16Z")]], .jstr "true", "c"⟩] ++
            [⟨200, [[("timestamp", "2021-04-25T18:18:17Z")]], .jstr "", ""⟩])
          ⟨none, []⟩).state).state =
      (runMain (fun s => s) ⟨0, "UTC"⟩ "p" none none "t" 1622548800 "1d"
        ([⟨200, [[("timestamp", "2021-04-25T18:18:16Z")]], .jstr "true", "c"⟩] ++
          [⟨200, [[("timestamp", "2021-04-25T18:18:17Z")]], .jstr "", ""⟩])
        ⟨none, []⟩).state :=
  (second_run_appends_nothing (fun s => s) ⟨0, "UTC"⟩ "p" none none "t"
    1622548800 "1d"
    [⟨200, [[("timestamp", "2021-04-25T18:18:16Z")]], .jstr "true", "c"⟩]
    ⟨200, [[("timestamp", "2021-04-25T18:18:17Z")]], .jstr "", ""⟩
    (by decide) (by decide)
    ⟨"2021-05-31T12:00:00Z", "2021-06-01T12:00:00Z"⟩ (by decide)
    ⟨none, []⟩).1

end DropboxRetrieval
